import Mathlib

/-!
Verification development for the INVEST-Checker-Agent repository.

This file shallowly embeds the retrieval engine (`src/db.py`), the text
normalizer (`src/utils.py`) and the conversation-state callback handlers
(`src/handlers.py`, with the deployed wiring from `src/main.py`) as pure
Lean functions, and proves or refutes the specification claims about them.

Modelling conventions:
* Python strings are modelled as Lean `String` / `List Char`; `str.lower`
  is modelled on the ASCII and Cyrillic ranges actually used by the
  program (the source only ever lowercases Russian/ASCII text).
* SQLite tables are modelled as Lean lists of rows, in insertion order;
  `ORDER BY`+`LIMIT` is modelled by a stable sort followed by `take`.
* `rapidfuzz.fuzz.token_sort_ratio(a, b) / 100` is the normalized Indel
  similarity of the token-sorted strings, i.e. `2·LCS/(|a'|+|b'|)`.
* Floats (similarity thresholds such as 0.6/0.75) are modelled as exact
  rationals; every concrete input used below keeps all comparisons far
  from the float-rounding boundary.
* The external judge/LLM call is passed in as a function argument whose
  result is an `Except`, and message sending is modelled as a returned
  message value (the transport is an opaque I/O boundary per the spec).
-/

set_option maxRecDepth 100000

/-! ## Python text primitives -/

/-- The whitespace characters of Python's `str.strip()` / `\s` (ASCII part). -/
def pySpace (c : Char) : Bool :=
  c == ' ' || c == '\t' || c == '\n' || c == '\r' || c == '\x0b' || c == '\x0c'

/-- Lowercasing table for `str.lower()`, restricted to the ASCII and Cyrillic
letters that the program's inputs use. -/
def lowerTable : List (Char × Char) :=
  [('A', 'a'), ('B', 'b'), ('C', 'c'), ('D', 'd'), ('E', 'e'), ('F', 'f'),
   ('G', 'g'), ('H', 'h'), ('I', 'i'), ('J', 'j'), ('K', 'k'), ('L', 'l'),
   ('M', 'm'), ('N', 'n'), ('O', 'o'), ('P', 'p'), ('Q', 'q'), ('R', 'r'),
   ('S', 's'), ('T', 't'), ('U', 'u'), ('V', 'v'), ('W', 'w'), ('X', 'x'),
   ('Y', 'y'), ('Z', 'z'),
   ('А', 'а'), ('Б', 'б'), ('В', 'в'), ('Г', 'г'), ('Д', 'д'), ('Е', 'е'),
   ('Ж', 'ж'), ('З', 'з'), ('И', 'и'), ('Й', 'й'), ('К', 'к'), ('Л', 'л'),
   ('М', 'м'), ('Н', 'н'), ('О', 'о'), ('П', 'п'), ('Р', 'р'), ('С', 'с'),
   ('Т', 'т'), ('У', 'у'), ('Ф', 'ф'), ('Х', 'х'), ('Ц', 'ц'), ('Ч', 'ч'),
   ('Ш', 'ш'), ('Щ', 'щ'), ('Ъ', 'ъ'), ('Ы', 'ы'), ('Ь', 'ь'), ('Э', 'э'),
   ('Ю', 'ю'), ('Я', 'я'), ('Ё', 'ё')]

/-- `str.lower()` on a single character (ASCII + Cyrillic). -/
def charLower (c : Char) : Char :=
  match lowerTable.lookup c with
  | some v => v
  | none => c

/-- Python's `\w` (word character) for the ASCII + Cyrillic inputs used here:
alphanumeric, underscore, or a character of the Cyrillic block U+0400–U+04FF. -/
def isWordChar (c : Char) : Bool :=
  c.isAlphanum || c == '_' || (0x400 ≤ c.toNat && c.toNat ≤ 0x4FF)

/-- Dropping a prefix by a predicate never lengthens a list. -/
theorem lengthDropWhileLe (p : α → Bool) : ∀ l : List α, (l.dropWhile p).length ≤ l.length
  | [] => Nat.le_refl 0
  | c :: t => by
    simp only [List.dropWhile]
    split
    · exact Nat.le_succ_of_le (lengthDropWhileLe p t)
    · simp

/-- Remove trailing whitespace (the right half of `str.strip()`). -/
def rstripWs : List Char → List Char
  | [] => []
  | c :: t =>
    let r := rstripWs t
    if r.isEmpty && pySpace c then [] else c :: r

/-- Python `str.strip()` (with no arguments): drop leading and trailing
whitespace. -/
def pyStrip (l : List Char) : List Char :=
  rstripWs (l.dropWhile pySpace)

/-- `str.strip()` on a `String`. -/
def pyStripStr (s : String) : String :=
  ⟨pyStrip s.data⟩

/-- `re.sub(r'\s+', ' ', text)`: each maximal whitespace run becomes one
single space.  (Processing from the right: a whitespace character melts
into an already-emitted space, so every maximal run yields one space.) -/
def collapseWs : List Char → List Char
  | [] => []
  | c :: t =>
    let r := collapseWs t
    if pySpace c then
      match r with
      | d :: _ => if d == ' ' then r else ' ' :: r
      | [] => [' ']
    else c :: r

/-- Python `str.split()` with no separator: split on whitespace runs,
dropping empty pieces.  (A non-space character extends the first word of
the tail's split exactly when the next character is not whitespace.) -/
def splitWs : List Char → List (List Char)
  | [] => []
  | c :: t =>
    if pySpace c then splitWs t
    else
      match t, splitWs t with
      | [], _ => [[c]]
      | d :: _, r =>
        if pySpace d then [c] :: r
        else
          match r with
          | w :: ws => (c :: w) :: ws
          | [] => [[c]]

/-- `' '.join(words)`. -/
def joinSpace : List (List Char) → List Char
  | [] => []
  | [w] => w
  | w :: rest => w ++ ' ' :: joinSpace rest

/-- Worker for `replaceAll`: structural recursion on a fuel counter (any
fuel of at least the list's length gives the untruncated answer, since a
non-empty pattern consumes at least one character per step). -/
def replaceGo (pat rep : List Char) : Nat → List Char → List Char
  | 0, l => l
  | _ + 1, [] => []
  | fuel + 1, c :: t =>
    if pat.isPrefixOf (c :: t) then
      rep ++ replaceGo pat rep fuel ((c :: t).drop pat.length)
    else
      c :: replaceGo pat rep fuel t

/-- Python `str.replace(pat, rep)`: left-to-right, non-overlapping.  The
source only ever replaces non-empty patterns. -/
def replaceAll (l pat rep : List Char) : List Char :=
  match pat with
  | [] => l
  | _ :: _ => replaceGo pat rep l.length l

/-- The `common_typos` substitution table of `utils.normalize_text`
(insertion order preserved, as in the Python dict). -/
def commonTypos : List (String × String) :=
  [("чтлбы", "чтобы"), ("что бы", "чтобы"), ("чотбы", "чтобы"),
   ("востановить", "восстановить"), ("аккаунт", "аккаунт"),
   ("зарегестрироваться", "зарегистрироваться"),
   ("пользаватель", "пользователь")]

/-- The typo-substitution loop of `utils.normalize_text`. -/
def typoFix (l : List Char) : List Char :=
  commonTypos.foldl (fun acc p => replaceAll acc p.1.data p.2.data) l

/-- `re.sub(r'[^\w\s]', ' ', text)`: every character that is neither a word
character nor whitespace becomes a space. -/
def punctToSpace (l : List Char) : List Char :=
  l.map (fun c => if isWordChar c || pySpace c then c else ' ')

/-- `utils.normalize_text` on character lists: lower, strip, typo table,
punctuation to spaces, collapse whitespace, strip. -/
def normalizeTextL (l : List Char) : List Char :=
  pyStrip (collapseWs (punctToSpace (typoFix (pyStrip (l.map charLower)))))

/-- `utils.normalize_text` (the guard for non-string/empty input returns ""
which coincides with the pipeline's value on the empty string). -/
def normalizeText (s : String) : String :=
  ⟨normalizeTextL s.data⟩

/-- `ExamplesDB._normalize_query`: lower, strip, collapse inner whitespace
(`' '.join(text.split())`). -/
def normQueryL (l : List Char) : List Char :=
  joinSpace (splitWs (pyStrip (l.map charLower)))

/-- `ExamplesDB._normalize_query` on `String`. -/
def normQuery (s : String) : String :=
  ⟨normQueryL s.data⟩

/-! ## Generic list helpers (stable sort, indexing, counting) -/

/-- Insert `x` into `l`, placing it before the first element `y` with
`lt x y`; used to model Python's stable sorts. -/
def insertBy (lt : α → α → Bool) (x : α) : List α → List α
  | [] => [x]
  | y :: ys => if lt x y then x :: y :: ys else y :: insertBy lt x ys

/-- Stable sort by a strict "must come before" relation, modelling Python's
`list.sort` / SQLite `ORDER BY` (ties keep their original order). -/
def sortBy (lt : α → α → Bool) (l : List α) : List α :=
  l.foldl (fun acc x => insertBy lt x acc) []

/-- Python list indexing `l[i]`: non-negative indices from the front,
negative indices from the back, `none` on `IndexError`. -/
def pyGetI (l : List α) (i : Int) : Option α :=
  if 0 ≤ i then l.get? i.toNat
  else if (-i) ≤ (l.length : Int) then l.get? (l.length - (-i).toNat)
  else none

/-- Substring test (`needle in hay`, SQL `LIKE '%' || needle || '%'`); both
sides here are already lowercase, so SQLite's ASCII case folding is moot. -/
def containsSub (hay needle : List Char) : Bool :=
  match hay with
  | [] => needle.isEmpty
  | _ :: t => needle.isPrefixOf hay || containsSub t needle

/-- Substring test on `String`. -/
def containsStr (hay needle : String) : Bool :=
  containsSub hay.data needle.data

/-! ## The similarity measure (`rapidfuzz.fuzz.token_sort_ratio`) -/

/-- Longest common subsequence length, by the classic row-update dynamic
program (`lcsRowStep` computes one row). -/
def lcsRowStep (c : Char) : List Char → List Nat → Nat → List Nat
  | [], _, _ => []
  | bj :: bs, prev, cur =>
    let diag := prev.headD 0
    let up := prev.tail.headD 0
    let next := if bj == c then diag + 1 else max cur up
    next :: lcsRowStep c bs prev.tail next

/-- Longest common subsequence length of two character lists. -/
def lcsLen (a b : List Char) : Nat :=
  (a.foldl (fun row c => 0 :: lcsRowStep c b row 0)
    (List.replicate (b.length + 1) 0)).getLastD 0

/-- Normalized Indel similarity: `rapidfuzz.fuzz.ratio(x, y) / 100`, i.e.
`2·LCS(x,y) / (|x| + |y|)` (and 1 for two empty strings). -/
def indelSim (x y : List Char) : ℚ :=
  if x.length + y.length = 0 then 1
  else mkRat (2 * lcsLen x y) (x.length + y.length)

/-- Strict lexicographic order on character lists (Python `sorted` on
strings compares code points). -/
def lexLt : List Char → List Char → Bool
  | [], [] => false
  | [], _ :: _ => true
  | _ :: _, [] => false
  | a :: as, b :: bs => if a < b then true else if b < a then false else lexLt as bs

/-- `rapidfuzz.fuzz.token_sort_ratio(a, b) / 100`: sort the
whitespace-separated tokens of each side, rejoin with single spaces, then
take the normalized Indel similarity. -/
def tokenSortSim (a b : String) : ℚ :=
  indelSim (joinSpace (sortBy lexLt (splitWs a.data)))
    (joinSpace (sortBy lexLt (splitWs b.data)))

/-! ## The corpus and `ExamplesDB` (src/db.py) -/

/-- One row of the `user_stories` table (`id`/timestamps are carried by the
list position and are not used by the modelled queries). -/
structure StoryRow where
  query : String
  normalized_query : String
  answer : String
  is_golden : Bool
  score : Int
  usage_count : Int
deriving DecidableEq

/-- A result tuple of `find_similar`:
`(query, answer, similarity, score)`. -/
abbrev SimItem := String × String × ℚ × Int

/-- `ORDER BY is_golden DESC, score DESC` as a strict precedence test. -/
def goldenScoreLt (r s : StoryRow) : Bool :=
  (r.is_golden && !s.is_golden) || (r.is_golden == s.is_golden && s.score < r.score)

/-- Descending order on the similarity component of a result tuple. -/
def simLt (x y : SimItem) : Bool :=
  y.2.2.1 < x.2.2.1

/-- `ExamplesDB._extract_keywords`: whitespace tokens longer than 3
characters that are not stop words, at most 4 of them. -/
def stopWords : List String :=
  ["как", "я", "хочу", "чтобы", "мне", "нужно", "можно", "что", "бы"]

/-- `ExamplesDB._extract_keywords`. -/
def extractKeywords (text : String) : List String :=
  (((splitWs text.data).map (fun w => (⟨w⟩ : String))).filter
    (fun w => !stopWords.contains w && decide (3 < w.length))).take 4

/-- `ExamplesDB._find_by_keywords`: rows containing the primary keyword as
a substring (SQL `LIKE`, limited to `2·limit` after the golden/score
ordering), scored by the fraction of keywords they contain, kept when that
fraction is at least one half, sorted by fraction descending. -/
def findByKeywords (db : List StoryRow) (keywords : List String) (lim : Nat) :
    List SimItem :=
  match keywords with
  | [] => []
  | primary :: _ =>
    let rows := (sortBy goldenScoreLt
      (db.filter (fun r => containsStr r.normalized_query primary))).take (lim * 2)
    let filtered := rows.filterMap (fun r =>
      let hits := (keywords.filter
        (fun k => containsStr r.normalized_query k)).length
      let frac : ℚ := mkRat hits keywords.length
      if mkRat 1 2 ≤ frac then some (r.query, r.answer, frac, r.score) else none)
    (sortBy simLt filtered).take lim

/-- The exact tier of `ExamplesDB.find_similar`: rows whose
`normalized_query` equals the normalized query, ordered by
`is_golden DESC, score DESC`, limited, reported with similarity 1.0. -/
def exactTier (db : List StoryRow) (query : String) (lim : Nat) : List SimItem :=
  ((sortBy goldenScoreLt
    (db.filter (fun r => r.normalized_query == normQuery query))).take lim).map
    (fun r => (r.query, r.answer, (1 : ℚ), r.score))

/-- The keyword tier of `ExamplesDB.find_similar` (step 2 in the code). -/
def keywordTier (db : List StoryRow) (query : String) (lim : Nat) : List SimItem :=
  findByKeywords db (extractKeywords (normQuery query)) lim

/-- The fuzzy threshold tier of `ExamplesDB.find_similar` (step 3 in the
code): candidates are golden rows or rows with score at least 4 (at most
100 of them after the golden/score ordering); a candidate is kept when its
`token_sort_ratio` with the normalized query reaches the threshold, and is
reported with that raw ratio as its similarity. -/
def fuzzyTier (db : List StoryRow) (query : String) (threshold : ℚ) (lim : Nat) :
    List SimItem :=
  let nq := normQuery query
  let candidates := (sortBy goldenScoreLt
    (db.filter (fun r => r.is_golden || decide (4 ≤ r.score)))).take 100
  let similar := candidates.filterMap (fun r =>
    let sim := tokenSortSim nq r.normalized_query
    if threshold ≤ sim then some (r.query, r.answer, sim, r.score) else none)
  (sortBy simLt similar).take lim

/-- `ExamplesDB.find_similar(query, threshold, limit)`, written exactly in
the source's control flow: exact matches first; otherwise the keyword
search (only attempted when some keyword was extracted); otherwise the
fuzzy scan.  The per-instance `self._cache` memoisation (keyed by query,
threshold and limit, cleared on every insert) is semantically transparent
for a pure function and is not modelled; the `except` wrapper that turns
database errors into `[]` is likewise unreachable in this pure model. -/
def findSimilar (db : List StoryRow) (query : String) (threshold : ℚ)
    (lim : Nat) : List SimItem :=
  let nq := normQuery query
  let exactMatches := (sortBy goldenScoreLt
    (db.filter (fun r => r.normalized_query == nq))).take lim
  if exactMatches.isEmpty then
    let keywords := extractKeywords nq
    let keywordResults :=
      if keywords.isEmpty then [] else findByKeywords db keywords lim
    if keywordResults.isEmpty then
      let candidates := (sortBy goldenScoreLt
        (db.filter (fun r => r.is_golden || decide (4 ≤ r.score)))).take 100
      let similar := candidates.filterMap (fun r =>
        let sim := tokenSortSim nq r.normalized_query
        if threshold ≤ sim then some (r.query, r.answer, sim, r.score) else none)
      (sortBy simLt similar).take lim
    else keywordResults
  else exactMatches.map (fun r => (r.query, r.answer, (1 : ℚ), r.score))

/-- `ExamplesDB.add_example`: a plain `INSERT` appending a new row with
`usage_count = 0` (the table has no UNIQUE constraint on
`normalized_query` and the statement is not an upsert). -/
def addExample (db : List StoryRow) (query normalized answer : String)
    (isGolden : Bool) (score : Int) : List StoryRow :=
  db ++ [⟨query, normalized, answer, isGolden, score, 0⟩]

/-- `ExamplesDB.increment_usage_count`: bump `usage_count` of every row
whose `normalized_query` matches. -/
def incrementUsage (db : List StoryRow) (normalized : String) : List StoryRow :=
  db.map (fun r =>
    if r.normalized_query == normalized then
      { r with usage_count := r.usage_count + 1 }
    else r)

/-- Number of rows of the table carrying a given `normalized_query`. -/
def countNorm (db : List StoryRow) (normalized : String) : Nat :=
  (db.filter (fun r => r.normalized_query == normalized)).length

/-! ## Message formatting (src/utils.py) -/

/-- The characters escaped by `utils.clean_markdown`
(`re.sub(r'([_*[\]()~`>#+\-=|{}.!])', r'\\\1', text)`). -/
def mdEscapeSet : List Char :=
  ['_', '*', '[', ']', '(', ')', '~', '\x60', '>', '#', '+', '-', '=', '|',
   '\x7b', '\x7d', '.', '!']

/-- The escaping substitution of `utils.clean_markdown`. -/
def mdEscape (l : List Char) : List Char :=
  l.foldr (fun c acc =>
    if mdEscapeSet.contains c then '\\' :: c :: acc else c :: acc) []

/-- Worker for `collapseNl`; also returns how many newlines the result
starts with, so a run of three or more newlines keeps exactly two. -/
def collapseNlAux : List Char → List Char × Nat
  | [] => ([], 0)
  | c :: t =>
    let (r, k) := collapseNlAux t
    if c == '\n' then
      if 2 ≤ k then (r, k + 1) else ('\n' :: r, k + 1)
    else (c :: r, 0)

/-- `re.sub(r'\n{3,}', '\n\n', text)` of `utils.clean_markdown`. -/
def collapseNl (l : List Char) : List Char :=
  (collapseNlAux l).1

/-- `utils.clean_markdown`. -/
def cleanMarkdown (l : List Char) : List Char :=
  collapseNl (mdEscape l)

/-- Positions (0-based) at which `sub` starts inside `hay`. -/
def findAllSub : List Char → List Char → Nat → List Nat
  | [], sub, pos => if sub.isEmpty then [pos] else []
  | c :: t, sub, pos =>
    (if sub.isPrefixOf (c :: t) then [pos] else []) ++ findAllSub t sub (pos + 1)

/-- Python `str.rfind(sub)`: last start position, `-1` when absent. -/
def rfindSub (hay sub : List Char) : Int :=
  match (findAllSub hay sub 0).getLast? with
  | some p => (p : Int)
  | none => -1

/-- `utils.safe_truncate_text(text, max_length)`.  Python compares the cut
position against `max_length * 0.7` in binary floating point; for the only
max length used (4000) that product is just below 2800, so the effective
integer test is `10 * last_section ≥ 7 * max_length`, which is how the
comparison is modelled here. -/
def safeTruncateL (l : List Char) (maxLen : Nat) : List Char :=
  if l.length ≤ maxLen then l
  else
    let truncated := l.take maxLen
    let lastSection := max (rfindSub truncated "\n\n".data)
      (max (rfindSub truncated "\n•".data) (rfindSub truncated "\n-".data))
    if 7 * (maxLen : Int) ≤ 10 * lastSection then
      pyStrip (truncated.take lastSection.toNat)
    else
      pyStrip truncated ++ "\n\n... (текст обрезан)".data

/-- The INVEST criterion markers recognised by
`utils.format_analysis_for_display`. -/
def criteriaMarkers : List String :=
  ["I (Independent)", "N (Negotiable)", "V (Valuable)", "E (Estimable)",
   "S (Small)", "T (Testable)"]

/-- Python `str.split('\n')` (keeps empty pieces). -/
def splitOnNl : List Char → List (List Char)
  | [] => [[]]
  | c :: t =>
    let r := splitOnNl t
    if c == '\n' then [] :: r
    else
      match r with
      | w :: ws => (c :: w) :: ws
      | [] => [[c]]

/-- `'\n'.join(lines)`. -/
def joinNl : List (List Char) → List Char
  | [] => []
  | [w] => w
  | w :: rest => w ++ '\n' :: joinNl rest

/-- The per-line step of `utils.format_analysis_for_display`: strip the
line, drop it when empty, bold the score and section headers, keep list
bullets, swap check marks on INVEST criterion lines. -/
def formatLine (line : List Char) : Option (List Char) :=
  let l := pyStrip line
  if l.isEmpty then none
  else if "Оценка:".data.isPrefixOf l then
    some ("**".data ++ l ++ "**".data)
  else if "Проблемы:".data.isPrefixOf l || "Рекомендации:".data.isPrefixOf l then
    some ('\n' :: ("**".data ++ l ++ "**".data))
  else if "•".data.isPrefixOf l || "-".data.isPrefixOf l then
    some l
  else if criteriaMarkers.any (fun m => containsSub l m.data) then
    some (if containsSub l ['✓'] then replaceAll l ['✓'] "✅".data
      else if containsSub l ['✗'] then replaceAll l ['✗'] "❌".data
      else l)
  else some l

/-- `utils.format_analysis_for_display(analysis, user_story)`. -/
def formatAnalysisForDisplay (analysis : String) (userStory : Option String) :
    String :=
  if analysis.data.isEmpty then "❌ Не удалось проанализировать историю"
  else
    let cleaned := cleanMarkdown (pyStrip analysis.data)
    let result := joinNl ((splitOnNl cleaned).filterMap formatLine)
    let result :=
      match userStory with
      | some us =>
        if us.data.isEmpty || (pyStrip us.data).isEmpty then result
        else "**User Story:**\n_".data ++ us.data ++ "_\n\n".data ++ result
      | none => result
    ⟨safeTruncateL result 4000⟩

/-- A chat message `{"role": ..., "content": ...}`. -/
abbrev ChatMsg := String × String

/-- `utils.build_fix_prompt`. -/
def buildFixPrompt (userStory : String) : List ChatMsg :=
  [("system",
    "Исправь User Story, сохранив цель. Сделай ее:\n- Более четкой и конкретной\n- Соответствующей критериям INVEST\n- С ясными критериями приемки\nВерни только исправленную версию."),
   ("user", "Исправь: " ++ userStory)]

/-! ## Sessions, bot data and the callback handlers (src/handlers.py,
wired as in src/main.py) -/

/-- The `BotState` string constants of `handlers.BotState`. -/
def stateMainMenu : String := "main_menu"

/-- `BotState.ANALYZING`. -/
def stateAnalyzing : String := "analyzing"

/-- `BotState.SHOWING_RESULTS`. -/
def stateShowingResults : String := "showing_results"

/-- `BotState.SHOWING_SIMILAR`. -/
def stateShowingSimilar : String := "showing_similar"

/-- `BotState.IMPROVING`. -/
def stateImproving : String := "improving"

/-- One version entry of `handlers.ImprovementChain` (`add_version`
appends `{story, analysis, timestamp, version}` with `version`
equal to the new length). -/
structure ChainEntry where
  story : String
  analysis : Option String
  timestamp : String
  version : Nat
deriving DecidableEq

/-- The `context.user_data['last_analysis']` record written by the
handlers (`{story, analysis, timestamp}`). -/
structure AnalysisRec where
  story : String
  analysis : String
  timestamp : String
deriving DecidableEq

/-- One entry of the per-user history kept by `SimpleBot`
(`{timestamp, story, analysis, type}`). -/
structure HistEntry where
  timestamp : String
  story : String
  analysis : Option String
  entryType : String
deriving DecidableEq

/-- `context.user_data` of one session: each key the handlers use becomes
an optional field (`none` models the key being absent from the dict). -/
structure Session where
  current_state : Option String := none
  initial_story : Option String := none
  original : Option String := none
  pending_text : Option String := none
  improved_story : Option String := none
  llm_fix : Option String := none
  similar_stories : Option (List SimItem) := none
  improvement_chain : Option (List ChainEntry) := none
  last_analysis : Option AnalysisRec := none
  user_history : Option (List HistEntry) := none
  current_db_page : Option Int := none
  is_improved : Option Bool := none
deriving DecidableEq

/-- The process-wide `context.bot_data` state that the modelled handlers
touch: the `SimpleBot` per-user history and counters, and the
`analysis_cache` dict (as an insertion-ordered association list). -/
structure BotData where
  userHistory : List (Nat × List HistEntry) := []
  totalMessages : Nat := 0
  userSessions : Nat := 0
  analysisCache : List (String × AnalysisRec) := []
deriving DecidableEq

/-- The full handler-visible state: one user's session, the shared bot
data and the story corpus. -/
structure HState where
  session : Session
  botData : BotData
  db : List StoryRow
deriving DecidableEq

/-- Lookup in an insertion-ordered association list (Python dict read). -/
def assocFind [BEq κ] (m : List (κ × β)) (k : κ) : Option β :=
  (m.find? (fun p => p.1 == k)).map (fun p => p.2)

/-- Update in an insertion-ordered association list (Python dict write:
an existing key keeps its position, a new key goes to the end). -/
def assocSet [BEq κ] (m : List (κ × β)) (k : κ) (v : β) : List (κ × β) :=
  if (m.find? (fun p => p.1 == k)).isSome then
    m.map (fun p => if p.1 == k then (k, v) else p)
  else m ++ [(k, v)]

/-- `SimpleBot.add_to_user_history` (src/main.py): count a session for a
new user, append the entry, bump the message counter, and keep only the
last 50 entries. -/
def addToUserHistory (bd : BotData) (uid : Nat) (story : String)
    (analysis : Option String) (now : String) : BotData :=
  let prev :=
    match assocFind bd.userHistory uid with
    | none => ([], bd.userSessions + 1)
    | some h => (h, bd.userSessions)
  let newHist := prev.1 ++ [⟨now, story, analysis, "user_story"⟩]
  let newHist :=
    if 50 < newHist.length then newHist.drop (newHist.length - 50) else newHist
  { bd with
    userHistory := assocSet bd.userHistory uid newHist,
    totalMessages := bd.totalMessages + 1,
    userSessions := prev.2 }

/-- The cache key `f"analysis_{hash(story.lower().strip())}"` of
`handlers._cache_analysis`.  Python's process-salted string hash is
modelled by the hashed content itself: the model keeps exactly the
collision behaviour that the program relies on. -/
def cacheKey (story : String) : String :=
  "analysis_" ++ (⟨pyStrip (story.data.map charLower)⟩ : String)

/-- `handlers._cache_analysis`: store under the key, then drop the oldest
entry when the cache grows past 100 entries. -/
def cacheAnalysis (bd : BotData) (story : String) (entry : AnalysisRec) :
    BotData :=
  let cache := assocSet bd.analysisCache (cacheKey story) entry
  let cache := if 100 < cache.length then cache.tail else cache
  { bd with analysisCache := cache }

/-- The message (or structured reply) a callback branch sends back through
the transport boundary. -/
inductive StepMsg where
  | text (s : String)
  | usedSimilar (story formatted : String) (sim : ℚ)
  | fixedVersion (fixed : String)
deriving DecidableEq

/-- The generic failure message of `callback_handler`'s outer
`except Exception` block. -/
def callbackErrorText : String :=
  "❌ Произошла ошибка при обработке запроса. Попробуйте снова."

/-- The main-menu screen text rendered by the `restart` branch. -/
def mainMenuText : String :=
  "🏠 **Главное меню**\n\nОтправьте User Story для анализа или выберите действие:"

/-- The `restart` branch of `handlers.callback_handler`: copy out the keys
`initial_story`, `user_history` and `last_analysis`, clear `user_data`,
put them back, render the main menu and set `current_state` to
`MAIN_MENU`.  Nothing else in the branch is touched: the shared
`bot_data` and the corpus are left as they are. -/
def restartStep (st : HState) : HState × StepMsg :=
  let kept := st.session
  let cleared : Session :=
    { initial_story := kept.initial_story,
      user_history := kept.user_history,
      last_analysis := kept.last_analysis }
  ({ st with session := { cleared with current_state := some stateMainMenu } },
   .text mainMenuText)

/-- The `use_similar_<i>` branch of `handlers.callback_handler`
(`pickSimilar(i)`): set `current_state` to `SHOWING_RESULTS` first, then
check `index < len(similar)`; in range, bump the chosen example's usage
count, format its stored judgment, record history/cache and
`last_analysis`; out of range, report the invalid-choice message.  A
negative index below `-len` raises `IndexError` inside `similar[index]`,
which the outer `except` turns into the generic error message. -/
def useSimilarStep (st : HState) (uid : Nat) (i : Int) (now : String) :
    HState × StepMsg :=
  let s1 := { st.session with current_state := some stateShowingResults }
  let similar := s1.similar_stories.getD []
  if i < (similar.length : Int) then
    match pyGetI similar i with
    | some item =>
      let story := item.1
      let answer := item.2.1
      let db' := incrementUsage st.db (normalizeText story)
      let formatted := formatAnalysisForDisplay answer none
      let entry : AnalysisRec := ⟨story, formatted, now⟩
      let bd' := cacheAnalysis
        (addToUserHistory st.botData uid story (some formatted) now) story entry
      let s2 := { s1 with last_analysis := some entry }
      (⟨s2, bd', db'⟩, .usedSimilar story formatted item.2.2.1)
    | none =>
      (⟨s1, st.botData, st.db⟩, .text callbackErrorText)
  else
    (⟨s1, st.botData, st.db⟩, .text "❌ Ошибка: некорректный выбор.")

/-- The `fix_with_llm` branch of `handlers.callback_handler`: set
`current_state` to `IMPROVING` first; without an `original` story report
an error; otherwise call the judge with the fix prompt.  A failing judge
call propagates to the outer `except`, which reports the retryable error
message and performs no rollback.  On success the stripped reply is shown
and stored under `llm_fix` and `pending_text`. -/
def fixWithLlmStep (st : HState)
    (judge : List ChatMsg → Except Unit String) : HState × StepMsg :=
  let s1 := { st.session with current_state := some stateImproving }
  match s1.original with
  | none =>
    ({ st with session := s1 }, .text "❌ Нет исходной истории для исправления.")
  | some orig =>
    match judge (buildFixPrompt orig) with
    | .error _ => ({ st with session := s1 }, .text callbackErrorText)
    | .ok resp =>
      let fixed := pyStripStr resp
      ({ st with session :=
          { s1 with llm_fix := some fixed, pending_text := some fixed } },
       .fixedVersion fixed)

/-! ## Signatures and module-level names (for the claims about calls
and imports) -/

/-- The parameter names of `ExamplesDB.find_similar` (src/db.py, line 50),
`self` excluded: `(query, threshold=0.65, limit=5)`. -/
def findSimilarParams : List String := ["query", "threshold", "limit"]

/-- The keyword-argument names used at the call site
`self.db.find_similar(text, threshold=0.7, prefer_golden=True)` in
`InvestBot.handle_message` (src/bot.py, line 242; the same call appears in
`_fix_with_llm` and `_improve_story`). -/
def handleMessageFindSimilarKwargs : List String := ["threshold", "prefer_golden"]

/-- The names bound at top level of module `bot` (src/bot.py): every
imported name followed by the module's own definitions. -/
def botModuleTopLevelNames : List String :=
  ["asyncio", "io", "re", "logging", "time", "Any", "List", "Tuple",
   "Update", "InlineKeyboardButton", "InlineKeyboardMarkup", "InputFile",
   "Application", "CommandHandler", "CallbackQueryHandler", "MessageHandler",
   "ContextTypes", "filters", "ExamplesDB", "normalize_text",
   "build_invest_prompt", "build_fix_prompt", "build_improve_prompt",
   "logger", "InvestBot"]

/-- The names module `handlers` imports from module `bot`
(src/handlers.py, line 5: `from bot import LRUCache`). -/
def handlersImportsFromBot : List String := ["LRUCache"]

/-! ## Supporting lemmas -/

/-- Membership is preserved by `insertBy`. -/
theorem mem_insertBy {lt : α → α → Bool} {x a : α} :
    ∀ {l : List α}, a ∈ insertBy lt x l ↔ a = x ∨ a ∈ l
  | [] => by simp [insertBy]
  | y :: ys => by
    simp only [insertBy]
    split
    · simp
    · rw [List.mem_cons, List.mem_cons, mem_insertBy (l := ys)]
      tauto

/-- Membership is preserved by `sortBy`. -/
theorem mem_sortBy {lt : α → α → Bool} {a : α} {l : List α} :
    a ∈ sortBy lt l ↔ a ∈ l := by
  have key : ∀ (l acc : List α),
      a ∈ l.foldl (fun acc x => insertBy lt x acc) acc ↔ a ∈ acc ∨ a ∈ l := by
    intro l
    induction l with
    | nil => simp
    | cons x xs ih =>
      intro acc
      simp only [List.foldl_cons, ih, mem_insertBy, List.mem_cons]
      tauto
  simpa [sortBy] using key l []

/-- `pyGetI` at a non-negative in-range index is plain list indexing. -/
theorem pyGetI_nonneg {l : List α} {i : Int} (h0 : 0 ≤ i)
    (hlt : i.toNat < l.length) : pyGetI l i = some (l.get ⟨i.toNat, hlt⟩) := by
  simp [pyGetI, h0, List.get?_eq_get hlt]

/-! ## Concrete instances used by the claim theorems -/

/-- A well-formed user story containing the commas its validation pattern
requires. -/
def c1T : String := "как пользователь, я хочу войти, чтобы работать"

/-- A one-row corpus whose entry shares two of the three query keywords. -/
def c2db : List StoryRow :=
  [⟨"Alpha Beta Delta", "alpha beta delta", "Оценка: 5/6", true, 5, 0⟩]

/-- A 103-character query (one long token, so no keyword of it occurs in
the corpus rows). -/
def c4query : String := ⟨List.replicate 103 'a'⟩

/-- A stored normalized text at Indel ratio exactly 0.97 to `c4query`. -/
def c4e1norm : String := ⟨List.replicate 97 'a'⟩

/-- A stored normalized text at Indel ratio exactly 0.80 to `c4query`. -/
def c4e2norm : String := ⟨List.replicate 80 'a' ++ List.replicate 17 'b'⟩

/-- The two-row corpus for the retrieval-tiering claim. -/
def c4db : List StoryRow :=
  [⟨"E1", c4e1norm, "Оценка: 5/6", true, 5, 0⟩,
   ⟨"E2", c4e2norm, "Оценка: 4/6", true, 4, 0⟩]

/-- A corpus obtained by two plain inserts carrying the same
`normalized_query`. -/
def c6table : List StoryRow :=
  addExample
    (addExample [] "Story A" "как пользователь я хочу войти чтобы работать"
      "Оценка: 5/6" false 0)
    "Story B" "как пользователь я хочу войти чтобы работать" "Оценка: 4/6" false 0

/-- A session that is showing one similar-story candidate. -/
def c8pre : HState :=
  ⟨{ current_state := some stateShowingSimilar,
     original := some "как пользователь, я хочу войти, чтобы работать",
     similar_stories := some [("s", "Оценка: 5/6", mkRat 9 10, 5)] },
   {}, [⟨"s", "s", "Оценка: 5/6", false, 5, 0⟩]⟩

/-- A session in the similar-stories screen holding an original story,
about to run `fix_with_llm`. -/
def c9pre : HState :=
  ⟨{ current_state := some stateShowingSimilar,
     original := some "как пользователь, я хочу войти, чтобы работать" },
   {}, []⟩

/-! ## The claims -/

/-- Claim C1 (code_bug): the exact tier does not fire for every inserted
text: inserting the story `c1T` through the save path (which stores
`normalize_text(T)` as the key) and querying `find_similar(T, 0.6)`
returns the empty list, not `T` with similarity 1.0, because
`find_similar` normalizes the query with the different `_normalize_query`
(which keeps punctuation), so for any text with a comma the two keys
disagree. -/
theorem c1_exact_tier_miss :
    findSimilar (addExample [] c1T (normalizeText c1T) "Оценка: 3/6" false 0)
      c1T (mkRat 3 5) 5 = [] ∧
    normQuery c1T ≠ normalizeText c1T := by
  decide

/-- Claim C3 (code_bug): `ExamplesDB.find_similar` has no `prefer_golden`
parameter, while `InvestBot.handle_message` calls it with the keyword
argument `prefer_golden=True`; in Python that binding mismatch raises
`TypeError`, so the call cannot return the golden matches the claim
describes. -/
theorem c3_prefer_golden_missing :
    "prefer_golden" ∈ handleMessageFindSimilarKwargs ∧
    "prefer_golden" ∉ findSimilarParams := by
  decide

/-- Claim C10 (code_bug): module `bot` defines no name `LRUCache`, so
`from bot import LRUCache` at the top of module `handlers` raises
`ImportError` and the handlers module cannot be initialized. -/
theorem c10_lrucache_not_in_bot :
    "LRUCache" ∈ handlersImportsFromBot ∧
    "LRUCache" ∉ botModuleTopLevelNames := by
  decide

/-- Claim C6, counterexample: after two inserts with the same
`normalized_query` the corpus holds two rows sharing that key — the
normalized text is not unique and `add_example` is not an upsert. -/
theorem c6_counterexample :
    c6table.length = 2 ∧
    ¬ (c6table.map (fun r => r.normalized_query)).Nodup := by
  decide

/-- Claim C6, amended: `add_example` always appends a fresh row, so every
insert increases by one the number of rows carrying its
`normalized_query`, whether or not such a row already exists. -/
theorem c6_insert_always_appends (db : List StoryRow) (q n a : String)
    (g : Bool) (sc : Int) (m : String) :
    countNorm (addExample db q n a g sc) m =
      countNorm db m + (if n = m then 1 else 0) := by
  simp only [countNorm, addExample, List.filter_append, List.length_append]
  by_cases h : n = m
  · subst h
    simp
  · simp [List.filter_cons, h]

/-- Claim C7 (confirmed): from every prior state, the `restart` branch
lands in `MAIN_MENU`, clears the pending story text, the similar-story
candidates and the improvement chain (along with the other ephemeral
keys), and preserves the kept session keys, the shared bot data (the
long-lived counters and per-user history) and the corpus. -/
theorem c7_restart_clears_and_preserves (st : HState) :
    (restartStep st).1.session.current_state = some stateMainMenu ∧
    (restartStep st).1.session.pending_text = none ∧
    (restartStep st).1.session.similar_stories = none ∧
    (restartStep st).1.session.improvement_chain = none ∧
    (restartStep st).1.session.original = none ∧
    (restartStep st).1.session.improved_story = none ∧
    (restartStep st).1.session.llm_fix = none ∧
    (restartStep st).1.session.initial_story = st.session.initial_story ∧
    (restartStep st).1.session.last_analysis = st.session.last_analysis ∧
    (restartStep st).1.session.user_history = st.session.user_history ∧
    (restartStep st).1.botData = st.botData ∧
    (restartStep st).1.db = st.db ∧
    (restartStep st).2 = .text mainMenuText :=
  ⟨rfl, rfl, rfl, rfl, rfl, rfl, rfl, rfl, rfl, rfl, rfl, rfl, rfl⟩

/-- Claim C2, counterexample: on the corpus `c2db` the keyword tier's
result (similarity 2/3) is what `find_similar` returns, even though the
fuzzy threshold tier is non-empty (it would report similarity 3/4): the
code runs the keyword search second and the threshold scan last, so the
keyword fallback does not wait for the threshold tier to come up empty,
and there is no near-duplicate tier at all. -/
theorem c2_counterexample :
    findSimilar c2db "alpha beta gamma" (mkRat 3 5) 5 =
      [("Alpha Beta Delta", "Оценка: 5/6", mkRat 2 3, 5)] ∧
    fuzzyTier c2db "alpha beta gamma" (mkRat 3 5) 5 =
      [("Alpha Beta Delta", "Оценка: 5/6", mkRat 3 4, 5)] ∧
    exactTier c2db "alpha beta gamma" 5 = [] ∧
    findSimilar c2db "alpha beta gamma" (mkRat 3 5) 5 ≠
      fuzzyTier c2db "alpha beta gamma" (mkRat 3 5) 5 := by
  decide

/-- Claim C2, amended: `find_similar` evaluates exactly three tiers, in
the order exact, keyword, fuzzy threshold, and returns the first
non-empty tier's results; the fuzzy threshold tier runs only when the
exact and keyword tiers both yield nothing (there is no near-duplicate
tier). -/
theorem c2_tier_order (db : List StoryRow) (q : String) (t : ℚ) (lim : Nat) :
    findSimilar db q t lim =
      (if (exactTier db q lim).isEmpty then
        (if (keywordTier db q lim).isEmpty then fuzzyTier db q t lim
         else keywordTier db q lim)
       else exactTier db q lim) := by
  have hkw :
      (if (extractKeywords (normQuery q)).isEmpty then []
       else findByKeywords db (extractKeywords (normQuery q)) lim) =
        keywordTier db q lim := by
    unfold keywordTier
    cases h : extractKeywords (normQuery q) with
    | nil => simp [findByKeywords]
    | cons a l => simp
  simp only [findSimilar]
  rw [hkw]
  cases hE : (sortBy goldenScoreLt
      (db.filter (fun r => r.normalized_query == normQuery q))).take lim with
  | nil => simp [exactTier, hE, fuzzyTier]
  | cons a l => simp [exactTier, hE]

/-- Claim C4, counterexample: the corpus `c4db` holds one entry at
normalized sequence ratio exactly 0.97 and one at exactly 0.80 relative to
`c4query`; with threshold 0.75 `find_similar` reports them with their raw
ratios 0.97 and 0.80 — the 0.97 entry is not reported at the fixed value
0.99 (no near-duplicate tier exists) and the 0.80 entry is not blended to
`0.7·0.80 + 0.3·0 = 0.56 = 14/25` (its token sets are disjoint, so the
word-overlap part of the blend the spec describes would be 0). -/
theorem c4_counterexample :
    tokenSortSim (normQuery c4query) c4e1norm = mkRat 97 100 ∧
    tokenSortSim (normQuery c4query) c4e2norm = mkRat 4 5 ∧
    findSimilar c4db c4query (mkRat 3 4) 5 =
      [("E1", "Оценка: 5/6", mkRat 97 100, 5),
       ("E2", "Оценка: 4/6", mkRat 4 5, 4)] ∧
    (mkRat 97 100 ≠ mkRat 99 100 ∧ mkRat 4 5 ≠ mkRat 14 25) := by
  decide

/-- Claim C4, amended: every result of the fuzzy threshold tier comes from
a corpus row that is golden or has score at least 4, carries as its
similarity the raw `token_sort_ratio` of the normalized query with the
row's normalized text (not a 0.99 cap and not a 0.7/0.3 blend), and that
ratio is at least the threshold; since a tier scans each row once, a row
appears at most once per tier. -/
theorem c4_fuzzy_tier_raw_ratio (db : List StoryRow) (q : String) (t : ℚ)
    (lim : Nat) (x : SimItem) (hx : x ∈ fuzzyTier db q t lim) :
    t ≤ x.2.2.1 ∧ ∃ r, r ∈ db ∧ (r.is_golden = true ∨ 4 ≤ r.score) ∧
      x = (r.query, r.answer, tokenSortSim (normQuery q) r.normalized_query,
        r.score) := by
  simp only [fuzzyTier] at hx
  have hx1 := List.take_subset _ _ hx
  rw [mem_sortBy, List.mem_filterMap] at hx1
  obtain ⟨r, hr, hfr⟩ := hx1
  have hrdb := List.take_subset _ _ hr
  rw [mem_sortBy, List.mem_filter] at hrdb
  split at hfr
  · next hcond =>
    cases hfr
    refine ⟨hcond, r, hrdb.1, ?_, rfl⟩
    have := hrdb.2
    simp only [Bool.or_eq_true, decide_eq_true_eq] at this
    exact this
  · exact absurd hfr (by simp)

/-- Claim C4, witness: a concrete fuzzy-tier result on a one-row golden
corpus satisfies the raw-ratio description. -/
theorem c4_fuzzy_tier_raw_ratio_witness :
    (mkRat 1 2 : ℚ) ≤ (("ab", "Оценка: 5/6", (1 : ℚ), (5 : Int)) : SimItem).2.2.1 ∧
    ∃ r, r ∈ [(⟨"ab", "ab", "Оценка: 5/6", true, 5, 0⟩ : StoryRow)] ∧
      (r.is_golden = true ∨ 4 ≤ r.score) ∧
      (("ab", "Оценка: 5/6", (1 : ℚ), (5 : Int)) : SimItem) =
        (r.query, r.answer, tokenSortSim (normQuery "ab") r.normalized_query,
          r.score) :=
  c4_fuzzy_tier_raw_ratio [⟨"ab", "ab", "Оценка: 5/6", true, 5, 0⟩] "ab"
    (mkRat 1 2) 5 ("ab", "Оценка: 5/6", 1, 5) (by decide)

/-- Claim C8, counterexample: picking candidate index 5 while only one
candidate is stored reports the invalid-choice message, but the session is
not left unchanged — `current_state` has already been switched to
`SHOWING_RESULTS` before the bounds check. -/
theorem c8_counterexample :
    (useSimilarStep c8pre 1 5 "t0").2 = .text "❌ Ошибка: некорректный выбор." ∧
    (useSimilarStep c8pre 1 5 "t0").1.session ≠ c8pre.session ∧
    (useSimilarStep c8pre 1 5 "t0").1.session.current_state =
      some stateShowingResults := by
  decide

/-- Claim C8, amended: with `0 ≤ i < len(candidates)` the `use_similar_i`
branch transitions to `SHOWING_RESULTS`, records the chosen candidate
(with its formatted stored judgment) as `last_analysis`, increments the
chosen example's usage count in the corpus, and reports the chosen story;
an out-of-range `i ≥ len` yields the user-visible invalid-choice message
but still mutates `current_state` to `SHOWING_RESULTS` (see the
counterexample), so the session is not left fully unchanged. -/
theorem c8_pick_similar (st : HState) (uid : Nat) (i : Int) (now : String)
    (h0 : 0 ≤ i)
    (hlt : i.toNat < (st.session.similar_stories.getD []).length) :
    (useSimilarStep st uid i now).1.session.current_state =
      some stateShowingResults ∧
    (useSimilarStep st uid i now).1.session.last_analysis =
      some ⟨((st.session.similar_stories.getD []).get ⟨i.toNat, hlt⟩).1,
        formatAnalysisForDisplay
          ((st.session.similar_stories.getD []).get ⟨i.toNat, hlt⟩).2.1 none,
        now⟩ ∧
    (useSimilarStep st uid i now).1.db =
      incrementUsage st.db
        (normalizeText
          ((st.session.similar_stories.getD []).get ⟨i.toNat, hlt⟩).1) ∧
    (useSimilarStep st uid i now).2 =
      .usedSimilar ((st.session.similar_stories.getD []).get ⟨i.toNat, hlt⟩).1
        (formatAnalysisForDisplay
          ((st.session.similar_stories.getD []).get ⟨i.toNat, hlt⟩).2.1 none)
        ((st.session.similar_stories.getD []).get ⟨i.toNat, hlt⟩).2.2.1 := by
  have hcond : i < ((st.session.similar_stories.getD []).length : Int) := by
    omega
  simp only [useSimilarStep, hcond, if_true, pyGetI_nonneg h0 hlt]
  refine ⟨?_, ?_, ?_, ?_⟩ <;> trivial

/-- Claim C8, witness: picking index 0 of the stored single candidate
transitions to `SHOWING_RESULTS` and bumps the usage count of the chosen
story. -/
theorem c8_pick_similar_witness :
    (useSimilarStep c8pre 1 0 "t0").1.session.current_state =
      some stateShowingResults ∧
    (useSimilarStep c8pre 1 0 "t0").1.db =
      incrementUsage c8pre.db (normalizeText "s") :=
  ⟨(c8_pick_similar c8pre 1 0 "t0" (by decide) (by decide)).1,
   (c8_pick_similar c8pre 1 0 "t0" (by decide) (by decide)).2.2.1⟩

/-- Claim C9, counterexample: a failing judge call in the `fix_with_llm`
branch surfaces the retryable error message, but the session does not
remain in its exact pre-call state: `current_state` was set to `IMPROVING`
before the call and is not restored by the outer exception handler. -/
theorem c9_counterexample :
    (fixWithLlmStep c9pre (fun _ => .error ())).2 = .text callbackErrorText ∧
    (fixWithLlmStep c9pre (fun _ => .error ())).1.session ≠ c9pre.session := by
  decide

/-- Claim C9, amended: when an original story is present and the judge
call fails, the `fix_with_llm` branch reports the retryable error message,
and the resulting state differs from the pre-call state exactly by
`current_state = IMPROVING`: every other session field, the shared bot
data and the corpus keep their pre-call values, so the user can retry. -/
theorem c9_judge_failure_frame (st : HState)
    (judge : List ChatMsg → Except Unit String) (o : String)
    (ho : st.session.original = some o)
    (hj : judge (buildFixPrompt o) = .error ()) :
    fixWithLlmStep st judge =
      ({ st with session :=
          { st.session with current_state := some stateImproving } },
       .text callbackErrorText) := by
  simp only [fixWithLlmStep]
  rw [ho]
  simp only [hj]

/-- Claim C9, witness: the frame property at a concrete session whose
judge call fails. -/
theorem c9_judge_failure_frame_witness :
    fixWithLlmStep c9pre (fun _ => .error ()) =
      ({ c9pre with session :=
          { c9pre.session with current_state := some stateImproving } },
       .text callbackErrorText) :=
  c9_judge_failure_frame c9pre (fun _ => .error ())
    "как пользователь, я хочу войти, чтобы работать" rfl rfl

/-! ## Normalization idempotence (claim C5) -/

/-- Claim C5, counterexample: normalization is not idempotent.  For the
input "что,бы" the comma becomes a space only after the typo table ran, so
the first pass produces "что бы"; the second pass then matches the typo
key `'что бы'` and yields "чтобы". -/
theorem c5_counterexample :
    normalizeText (normalizeText "что,бы") ≠ normalizeText "что,бы" ∧
    normalizeText "что,бы" = "что бы" ∧
    normalizeText (normalizeText "что,бы") = "чтобы" := by
  decide

/-- A table lookup hit comes from a table entry. -/
theorem lookup_mem_pairs [BEq κ] {k : κ} {v : β} :
    ∀ {m : List (κ × β)}, m.lookup k = some v → ∃ p ∈ m, p.2 = v
  | [], h => by simp [List.lookup] at h
  | (a, b) :: t, h => by
    simp only [List.lookup] at h
    split at h
    · exact ⟨(a, b), by simp, Option.some.inj h⟩
    · obtain ⟨p, hp, hv⟩ := lookup_mem_pairs (m := t) h
      exact ⟨p, List.mem_cons_of_mem _ hp, hv⟩

/-- No value of the lowercase table is itself a key of the table. -/
theorem lowerTable_values_not_keys :
    lowerTable.all (fun p => (lowerTable.lookup p.2).isNone) = true := by
  decide

/-- `str.lower()` is idempotent character by character. -/
theorem charLower_idem (c : Char) : charLower (charLower c) = charLower c := by
  unfold charLower
  cases h : lowerTable.lookup c with
  | none => rw [h]
  | some v =>
    obtain ⟨p, hp, hv⟩ := lookup_mem_pairs h
    have := List.all_eq_true.mp lowerTable_values_not_keys p hp
    rw [hv] at this
    cases hv2 : lowerTable.lookup v with
    | none => rfl
    | some w => rw [hv2] at this; simp at this

/-- Characters of a right-stripped list come from the list. -/
theorem mem_rstripWs {c : Char} : ∀ {l : List Char}, c ∈ rstripWs l → c ∈ l
  | [], h => by simp [rstripWs] at h
  | a :: t, h => by
    simp only [rstripWs] at h
    split at h
    · simp at h
    · rcases List.mem_cons.mp h with h | h
      · simp [h]
      · exact List.mem_cons_of_mem _ (mem_rstripWs h)

/-- Characters surviving `dropWhile` come from the list. -/
theorem mem_dropWhileSubset {p : α → Bool} {c : α} :
    ∀ {l : List α}, c ∈ l.dropWhile p → c ∈ l
  | [], h => by simp [List.dropWhile] at h
  | a :: t, h => by
    simp only [List.dropWhile] at h
    split at h
    · exact List.mem_cons_of_mem _ (mem_dropWhileSubset h)
    · exact h

/-- Characters of `pyStrip l` come from `l`. -/
theorem mem_pyStrip {c : Char} {l : List Char} (h : c ∈ pyStrip l) : c ∈ l :=
  mem_dropWhileSubset (mem_rstripWs h)

/-- Characters of `replaceGo` come from the subject or the replacement. -/
theorem mem_replaceGo {pat rep : List Char} {c : Char} :
    ∀ {fuel : Nat} {l : List Char}, c ∈ replaceGo pat rep fuel l →
      c ∈ l ∨ c ∈ rep
  | 0, l, h => Or.inl h
  | fuel + 1, [], h => by simp [replaceGo] at h
  | fuel + 1, a :: t, h => by
    simp only [replaceGo] at h
    split at h
    · rcases List.mem_append.mp h with h | h
      · exact Or.inr h
      · rcases mem_replaceGo h with h | h
        · exact Or.inl (List.drop_subset _ _ h)
        · exact Or.inr h
    · rcases List.mem_cons.mp h with h | h
      · exact Or.inl (by simp [h])
      · rcases mem_replaceGo h with h | h
        · exact Or.inl (List.mem_cons_of_mem _ h)
        · exact Or.inr h

/-- Characters of `replaceAll` come from the subject or the replacement. -/
theorem mem_replaceAll {l pat rep : List Char} {c : Char}
    (h : c ∈ replaceAll l pat rep) : c ∈ l ∨ c ∈ rep := by
  unfold replaceAll at h
  split at h
  · exact Or.inl h
  · exact mem_replaceGo h

/-- Characters of `typoFix l` come from `l` or from some typo-table
replacement value. -/
theorem mem_typoFix {l : List Char} {c : Char} (h : c ∈ typoFix l) :
    c ∈ l ∨ ∃ p ∈ commonTypos, c ∈ p.2.data := by
  have key : ∀ (ps : List (String × String)) (acc : List Char),
      c ∈ ps.foldl (fun acc p => replaceAll acc p.1.data p.2.data) acc →
        c ∈ acc ∨ ∃ p ∈ ps, c ∈ p.2.data := by
    intro ps
    induction ps with
    | nil => intro acc h; exact Or.inl h
    | cons q qs ih =>
      intro acc h
      rcases ih _ h with h | ⟨p, hp, hc⟩
      · rcases mem_replaceAll h with h | h
        · exact Or.inl h
        · exact Or.inr ⟨q, by simp, h⟩
      · exact Or.inr ⟨p, List.mem_cons_of_mem _ hp, hc⟩
  exact key commonTypos l h

/-- Characters of `punctToSpace l` are the space or come from `l`. -/
theorem mem_punctToSpace {l : List Char} {c : Char} (h : c ∈ punctToSpace l) :
    c = ' ' ∨ (c ∈ l ∧ (isWordChar c || pySpace c) = true) := by
  unfold punctToSpace at h
  rcases List.mem_map.mp h with ⟨a, ha, hc⟩
  by_cases hcond : (isWordChar a || pySpace a) = true
  · rw [hcond] at hc
    simp only [if_true] at hc
    exact Or.inr ⟨hc ▸ ha, hc ▸ hcond⟩
  · simp only [hcond] at hc
    simp at hc
    exact Or.inl hc.symm

/-- Unfolding equation for `collapseWs` on a cons cell. -/
theorem collapseWs_cons (a : Char) (t : List Char) :
    collapseWs (a :: t) =
      (if pySpace a then
        match collapseWs t with
        | d :: _ => if d == ' ' then collapseWs t else ' ' :: collapseWs t
        | [] => [' ']
      else a :: collapseWs t) := rfl

/-- Characters of `collapseWs l` are the space or non-whitespace
characters of `l`. -/
theorem mem_collapseWs {c : Char} :
    ∀ {l : List Char}, c ∈ collapseWs l →
      c = ' ' ∨ (c ∈ l ∧ pySpace c = false)
  | [], h => by simp [collapseWs] at h
  | a :: t, h => by
    rw [collapseWs_cons] at h
    by_cases ha : pySpace a = true
    · rw [if_pos ha] at h
      have step : c = ' ' ∨ c ∈ collapseWs t := by
        rcases ht : collapseWs t with _ | ⟨d, r⟩
        · rw [ht] at h
          simp only [List.mem_singleton] at h
          exact Or.inl h
        · rw [ht] at h
          simp only [] at h
          by_cases hd : (d == ' ') = true
          · rw [if_pos hd] at h
            exact Or.inr (ht ▸ h)
          · rw [if_neg hd] at h
            rcases List.mem_cons.mp h with h | h
            · exact Or.inl h
            · exact Or.inr (ht ▸ h)
      rcases step with h1 | h1
      · exact Or.inl h1
      · rcases mem_collapseWs h1 with h2 | ⟨h2, h3⟩
        · exact Or.inl h2
        · exact Or.inr ⟨List.mem_cons_of_mem _ h2, h3⟩
    · rw [if_neg ha] at h
      rcases List.mem_cons.mp h with h1 | h1
      · subst h1
        exact Or.inr ⟨List.mem_cons_self _ _, by simpa using ha⟩
      · rcases mem_collapseWs h1 with h2 | ⟨h2, h3⟩
        · exact Or.inl h2
        · exact Or.inr ⟨List.mem_cons_of_mem _ h2, h3⟩

/-- No two adjacent characters are both whitespace. -/
def noTwoSpaces : List Char → Bool
  | a :: b :: t => (!(pySpace a && pySpace b)) && noTwoSpaces (b :: t)
  | _ => true

/-- Unfolding of `noTwoSpaces` on a cons cell. -/
theorem noTwoSpaces_cons (a : Char) (t : List Char) :
    noTwoSpaces (a :: t) =
      ((match t with
        | b :: _ => !(pySpace a && pySpace b)
        | [] => true) && noTwoSpaces t) := by
  cases t <;> simp [noTwoSpaces]

/-- The head of `collapseWs l` is the space or a non-whitespace character. -/
theorem collapseWs_head {l : List Char} {d : Char} {r : List Char}
    (h : collapseWs l = d :: r) : d = ' ' ∨ pySpace d = false := by
  have : d ∈ collapseWs l := h ▸ List.mem_cons_self d r
  rcases mem_collapseWs this with h1 | ⟨_, h1⟩
  · exact Or.inl h1
  · exact Or.inr h1

/-- `collapseWs` never produces two adjacent whitespace characters. -/
theorem collapseWs_noTwoSpaces : ∀ (l : List Char), noTwoSpaces (collapseWs l) = true
  | [] => rfl
  | a :: t => by
    rw [collapseWs_cons]
    have IH := collapseWs_noTwoSpaces t
    by_cases ha : pySpace a = true
    · rw [if_pos ha]
      rcases ht : collapseWs t with _ | ⟨d, r⟩
      · simp [noTwoSpaces]
      · simp only []
        by_cases hd : (d == ' ') = true
        · rw [if_pos hd]
          rw [ht] at IH
          exact IH
        · rw [if_neg hd]
          rw [ht] at IH
          rw [noTwoSpaces_cons]
          simp only []
          rcases collapseWs_head ht with h1 | h1
          · exact absurd (beq_iff_eq.mpr h1) hd
          · simp [h1, IH]
    · rw [if_neg ha]
      rw [noTwoSpaces_cons]
      have hb : (match collapseWs t with
          | b :: _ => !(pySpace a && pySpace b)
          | [] => true) = true := by
        rcases ht : collapseWs t with _ | ⟨d, r⟩
        · rfl
        · simp [Bool.eq_false_iff.mpr, show pySpace a = false by simpa using ha]
      rw [hb, IH]
      rfl

/-- `noTwoSpaces` survives dropping a tail of the list from the front. -/
theorem noTwoSpaces_tail {a : Char} {t : List Char}
    (h : noTwoSpaces (a :: t) = true) : noTwoSpaces t = true := by
  rw [noTwoSpaces_cons] at h
  exact ((Bool.and_eq_true _ _).mp h).2

/-- `noTwoSpaces` survives `dropWhile`. -/
theorem noTwoSpaces_dropWhile {p : Char → Bool} :
    ∀ {l : List Char}, noTwoSpaces l = true →
      noTwoSpaces (l.dropWhile p) = true
  | [], h => h
  | a :: t, h => by
    simp only [List.dropWhile]
    split
    · exact noTwoSpaces_dropWhile (noTwoSpaces_tail h)
    · exact h

/-- A non-empty `rstripWs` result keeps the head of its input. -/
theorem rstripWs_head {l : List Char} {d : Char} {r : List Char}
    (h : rstripWs l = d :: r) : ∃ t, l = d :: t := by
  cases l with
  | nil => simp [rstripWs] at h
  | cons a t =>
    simp only [rstripWs] at h
    split at h
    · cases h
    · exact ⟨t, by rw [(List.cons.injEq _ _ _ _).mp h |>.1]⟩

/-- `noTwoSpaces` survives `rstripWs`. -/
theorem noTwoSpaces_rstripWs :
    ∀ {l : List Char}, noTwoSpaces l = true → noTwoSpaces (rstripWs l) = true
  | [], h => h
  | a :: t, h => by
    simp only [rstripWs]
    split
    · rfl
    · rw [noTwoSpaces_cons]
      have IH := noTwoSpaces_rstripWs (noTwoSpaces_tail h)
      have hpair : (match rstripWs t with
          | b :: _ => !(pySpace a && pySpace b)
          | [] => true) = true := by
        rcases ht : rstripWs t with _ | ⟨d, r⟩
        · rfl
        · obtain ⟨t', ht'⟩ := rstripWs_head ht
          rw [noTwoSpaces_cons, ht'] at h
          simp only [Bool.and_eq_true] at h
          exact h.1
      rw [hpair, IH]
      rfl

/-- The last character of a right-stripped list is not whitespace. -/
theorem rstripWs_last :
    ∀ {l : List Char} {c : Char}, (rstripWs l).getLast? = some c →
      pySpace c = false
  | [], c, h => by simp [rstripWs] at h
  | a :: t, c, h => by
    simp only [rstripWs] at h
    split at h
    · simp at h
    · next hcond =>
      rcases ht : rstripWs t with _ | ⟨d, r⟩
      · rw [ht] at h
        simp only [List.getLast?_singleton] at h
        rw [ht] at hcond
        simp only [List.isEmpty_nil, Bool.true_and] at hcond
        cases h
        simpa using hcond
      · rw [ht] at h
        rw [List.getLast?_cons_cons] at h
        rw [← ht] at h
        exact rstripWs_last h

/-- The head of a `pyStrip` result is not whitespace. -/
theorem pyStrip_head {l : List Char} {d : Char} {r : List Char}
    (h : pyStrip l = d :: r) : pySpace d = false := by
  unfold pyStrip at h
  obtain ⟨t, ht⟩ := rstripWs_head h
  have := List.head?_dropWhile_not pySpace l
  rw [ht] at this
  simpa using this

/-- A map whose function fixes every member is the identity. -/
theorem map_id_of_mem {f : α → α} {l : List α} (h : ∀ a ∈ l, f a = a) :
    l.map f = l := by
  rw [List.map_congr_left h]
  exact List.map_id l

/-- `rstripWs` is the identity when the last character is not whitespace. -/
theorem rstripWs_id :
    ∀ {l : List Char},
      (∀ c, l.getLast? = some c → pySpace c = false) → rstripWs l = l
  | [], _ => rfl
  | a :: t, h => by
    simp only [rstripWs]
    cases t with
    | nil =>
      have := h a rfl
      simp [this, rstripWs]
    | cons b t' =>
      have IH := rstripWs_id (l := b :: t')
        (fun c hc => h c (by rw [List.getLast?_cons_cons]; exact hc))
      rw [IH]
      simp

/-- `pyStrip` is the identity on lists with non-whitespace ends. -/
theorem pyStrip_id {l : List Char}
    (hhead : ∀ d r, l = d :: r → pySpace d = false)
    (hlast : ∀ c, l.getLast? = some c → pySpace c = false) : pyStrip l = l := by
  unfold pyStrip
  have hdw : l.dropWhile pySpace = l := by
    cases l with
    | nil => rfl
    | cons d r => exact List.dropWhile_cons_of_neg (by simp [hhead d r rfl])
  rw [hdw]
  exact rstripWs_id hlast

/-- A word character is not whitespace. -/
theorem word_not_space {a : Char} (hw : isWordChar a = true) :
    pySpace a = false := by
  cases hps : pySpace a
  · rfl
  · exfalso
    have : ((((a = ' ' ∨ a = '\t') ∨ a = '\n') ∨ a = '\r') ∨ a = '\x0b') ∨
        a = '\x0c' := by
      unfold pySpace at hps
      simp only [Bool.or_eq_true, beq_iff_eq] at hps
      exact hps
    rcases this with ((((rfl | rfl) | rfl) | rfl) | rfl) | rfl <;>
      exact absurd hw (by decide)

/-- `collapseWs` is the identity when every character is a word character
or the single space and no two spaces are adjacent. -/
theorem collapseWs_id :
    ∀ {l : List Char},
      (∀ c ∈ l, ((isWordChar c && (charLower c == c)) || c == ' ') = true) →
      noTwoSpaces l = true → collapseWs l = l
  | [], _, _ => rfl
  | a :: t, hchars, hsp => by
    rw [collapseWs_cons]
    have IH := collapseWs_id
      (fun c hc => hchars c (List.mem_cons_of_mem _ hc)) (noTwoSpaces_tail hsp)
    by_cases ha : pySpace a = true
    · rw [if_pos ha]
      have haSpace : a = ' ' := by
        have hca := hchars a (List.mem_cons_self _ _)
        rcases Bool.or_eq_true _ _ |>.mp hca with h | h
        · exact absurd ha
            (by simp [word_not_space (((Bool.and_eq_true _ _).mp h).1)])
        · exact beq_iff_eq.mp h
      cases t with
      | nil => simp [collapseWs, haSpace]
      | cons b t' =>
        have hbNotSpace : pySpace b = false := by
          rw [noTwoSpaces_cons] at hsp
          have := ((Bool.and_eq_true _ _).mp hsp).1
          simp only [ha, Bool.true_and, Bool.not_eq_true'] at this
          exact this
        rcases htb : collapseWs (b :: t') with _ | ⟨d, r⟩
        · rw [IH] at htb
          cases htb
        · rw [IH] at htb
          have hd : (d == ' ') = false := by
            cases htb
            rw [beq_eq_false_iff_ne]
            intro hEq
            rw [hEq] at hbNotSpace
            simp [pySpace] at hbNotSpace
          rw [← IH, htb]
          simp only []
          rw [if_neg (by simp [hd])]
          rw [← htb, IH, haSpace]
    · rw [if_neg ha, IH]

/-- Every character of a typo-table replacement value is lowercase-fixed. -/
theorem typoVals_lowerFixed :
    commonTypos.all (fun p => p.2.data.all (fun c => charLower c == c)) = true := by
  decide

/-- Every character of a normalized text is a lowercase-fixed word
character or the single space. -/
theorem normalizeTextL_chars {l : List Char} :
    ∀ c ∈ normalizeTextL l,
      ((isWordChar c && (charLower c == c)) || c == ' ') = true := by
  intro c hc
  have h1 : c ∈ collapseWs (punctToSpace (typoFix (pyStrip (l.map charLower)))) :=
    mem_pyStrip hc
  rcases mem_collapseWs h1 with hsp | ⟨h2, h3⟩
  · simp [hsp]
  · rcases mem_punctToSpace h2 with h4 | ⟨h5, h6⟩
    · rw [h4] at h3
      simp [pySpace] at h3
    · have hword : isWordChar c = true := by
        rcases Bool.or_eq_true _ _ |>.mp h6 with h | h
        · exact h
        · rw [h] at h3
          cases h3
      have hlower : (charLower c == c) = true := by
        rcases mem_typoFix h5 with h7 | ⟨p, hp, h8⟩
        · rcases List.mem_map.mp (mem_pyStrip h7) with ⟨b, _, hcb⟩
          rw [beq_iff_eq, ← hcb]
          exact charLower_idem b
        · have := List.all_eq_true.mp typoVals_lowerFixed p hp
          exact List.all_eq_true.mp this c h8
      simp [hword, hlower]

/-- `punctToSpace` is the identity on canonical characters. -/
theorem punctToSpace_id {l : List Char}
    (h : ∀ c ∈ l, ((isWordChar c && (charLower c == c)) || c == ' ') = true) :
    punctToSpace l = l := by
  apply map_id_of_mem
  intro a ha
  have hcond : (isWordChar a || pySpace a) = true := by
    rcases Bool.or_eq_true _ _ |>.mp (h a ha) with hg | hg
    · simp [((Bool.and_eq_true _ _).mp hg).1]
    · rw [beq_iff_eq.mp hg]
      rfl
  simp [hcond]

/-- Lowercasing is the identity on canonical characters. -/
theorem mapLower_id {l : List Char}
    (h : ∀ c ∈ l, ((isWordChar c && (charLower c == c)) || c == ' ') = true) :
    l.map charLower = l := by
  apply map_id_of_mem
  intro a ha
  rcases Bool.or_eq_true _ _ |>.mp (h a ha) with hg | hg
  · exact beq_iff_eq.mp (((Bool.and_eq_true _ _).mp hg).2)
  · rw [beq_iff_eq.mp hg]
    decide

/-- Conditional idempotence on character lists: a second normalization
pass is the identity whenever the typo table does not fire on the already
normalized text. -/
theorem normalizeTextL_idem_of_typoFix {l : List Char}
    (h : typoFix (normalizeTextL l) = normalizeTextL l) :
    normalizeTextL (normalizeTextL l) = normalizeTextL l := by
  have hchars := normalizeTextL_chars (l := l)
  have hnts : noTwoSpaces (normalizeTextL l) = true :=
    noTwoSpaces_rstripWs (noTwoSpaces_dropWhile (collapseWs_noTwoSpaces _))
  have hlast : ∀ c, (normalizeTextL l).getLast? = some c → pySpace c = false :=
    fun c hc => rstripWs_last hc
  have hhead : ∀ d r, normalizeTextL l = d :: r → pySpace d = false :=
    fun d r hdr => pyStrip_head hdr
  have hps : pyStrip (normalizeTextL l) = normalizeTextL l :=
    pyStrip_id hhead hlast
  show pyStrip (collapseWs (punctToSpace (typoFix (pyStrip
    ((normalizeTextL l).map charLower))))) = normalizeTextL l
  rw [mapLower_id hchars, hps, h, punctToSpace_id hchars,
    collapseWs_id hchars hnts, hps]

/-- Claim C5, amended: normalization is idempotent exactly on the inputs
whose normalized form is a fixed point of the typo-substitution table: for
every string `s` with `typoFix (normalize s) = normalize s`, a second pass
changes nothing (all the other pipeline stages — lowercasing, stripping,
punctuation removal and whitespace collapsing — are always the identity on
an already normalized text, as the counterexample "что,бы" shows the typo
table is not). -/
theorem c5_normalize_conditionally_idem (s : String)
    (h : typoFix (normalizeText s).data = (normalizeText s).data) :
    normalizeText (normalizeText s) = normalizeText s := by
  have he : ∀ t : String, normalizeText t = String.mk (normalizeTextL t.data) :=
    fun t => rfl
  have hd : ∀ l : List Char, (String.mk l).data = l := fun l => rfl
  rw [he s, hd] at h
  rw [he s, he (String.mk (normalizeTextL s.data)), hd]
  rw [normalizeTextL_idem_of_typoFix h]

/-- Claim C5, witness: a typical punctuated mixed-case input whose
normalization is typo-free is a fixed point of the second pass. -/
theorem c5_normalize_conditionally_idem_witness :
    normalizeText (normalizeText "Привет,  Мир!") =
      normalizeText "Привет,  Мир!" :=
  c5_normalize_conditionally_idem "Привет,  Мир!" (by decide)
